import Mathlib

/-!
Shallow embedding of `src/conv_net.py`: a convolutional sequence-to-sequence
model (Encoder, attention-augmented Decoder, Seq2Seq wrapper).

Modelling conventions:
* A floating-point tensor of shape (a, b, c) is a function
  `Fin a → Fin b → Fin c → K` over a field `K` of idealized scalars.
* Integer token batches of shape (batch, len) are `Fin B → Fin L → ℕ`.
* Runtime failures are values of `Except PyErr _`:
  `indexError` for an out-of-range embedding lookup,
  `shapeError` for an invalid convolution / mismatched elementwise add,
  `nameError` for Python's unbound-variable failure when the layer loop
  body never ran, and `assertError` for the constructor assertion.
* `exp : K → K` abstracts the scalar exponential used by the sigmoid
  gate of `F.glu` and by `F.softmax` (the source instantiates it with the
  real exponential; `F.softmax` subtracts the row maximum before
  exponentiating, which leaves the mathematical value unchanged).
* Dropout (`nn.Dropout`) is an explicit tensor transformation carried by
  a `DropFn`; in inference mode it is the identity.  Each occurrence of
  `self.dropout(x)` in the source becomes an application of that
  transformation.
* The `device` placement and the dropout probability have no numeric
  content in this model and are omitted from the module records.
-/

/-- Runtime failure kinds of the Python source. -/
inductive PyErr where
  | indexError
  | shapeError
  | nameError
  | assertError
  deriving DecidableEq, Repr

/-- A rank-3 tensor of shape (a, b, c) with scalar type `K`. -/
abbrev Ten3 (K : Type) (a b c : ℕ) : Type := Fin a → Fin b → Fin c → K

/-- Parameters of `nn.Linear(inF, outF)`. -/
structure LinearParams (K : Type) (inF outF : ℕ) where
  weight : Fin outF → Fin inF → K
  bias : Fin outF → K

/-- Parameters of `nn.Conv1d(inC, outC, k)`. -/
structure Conv1dParams (K : Type) (inC outC k : ℕ) where
  weight : Fin outC → Fin inC → Fin k → K
  bias : Fin outC → K

/-- A dropout transformation, applicable at every tensor shape.  In
training mode `nn.Dropout` zeroes entries at random and rescales; in
inference mode it is the identity.  Each call site of `self.dropout`
applies this transformation. -/
structure DropFn (K : Type) where
  app : {a b c : ℕ} → Ten3 K a b c → Ten3 K a b c

/-- The identity dropout: inference mode (dropout disabled). -/
def idDrop (K : Type) : DropFn K := ⟨fun x => x⟩

/-- Logistic sigmoid `1 / (1 + exp (-x))`, the gate of `F.glu`. -/
def sigmoid {K : Type} [Field K] (exp : K → K) (x : K) : K :=
  1 / (1 + exp (-x))

/-- Application of `nn.Linear` along the last axis of a
(batch, len, inF) tensor, as the source does with `emb2hid`, `hid2emb`,
`attn_hid2emb`, `attn_emb2hid` and `out`. -/
def linApply {K : Type} [Field K] {B L inF outF : ℕ}
    (P : LinearParams K inF outF) (x : Ten3 K B L inF) : Ten3 K B L outF :=
  fun b l o => P.bias o + ∑ i : Fin inF, P.weight o i * x b l i

/-- Read position `u` of a length-`L` sequence extended on the left by
`pL` positions holding `padVal`.  Positions beyond the right end also
yield `padVal`; in the encoder `padVal = 0` matches the symmetric zero
padding of `nn.Conv1d`, and in the decoder the right region is never
read because the explicit padding is purely on the left. -/
def convPadGet {K : Type} {L : ℕ} (padVal : K) (x : Fin L → K) (pL u : ℕ) : K :=
  if u < pL then padVal
  else if h : u - pL < L then x ⟨u - pL, h⟩ else padVal

/-- Output sequence length of a 1-D convolution with kernel `k` over an
input of length `L` padded by `pL` on the left and `pR` on the right. -/
def conv1dOutLen (k pL pR L : ℕ) : ℕ := pL + L + pR + 1 - k

/-- Semantics of `nn.Conv1d` on a channel-first (batch, inC, L) tensor,
with `pL`/`pR` positions of `padVal` prepended/appended along the
sequence axis. -/
def conv1d {K : Type} [Field K] {B inC outC k L : ℕ}
    (P : Conv1dParams K inC outC k) (padVal : K) (pL pR : ℕ)
    (x : Ten3 K B inC L) : Ten3 K B outC (conv1dOutLen k pL pR L) :=
  fun b oc t => P.bias oc +
    ∑ ic : Fin inC, ∑ j : Fin k,
      P.weight oc ic j * convPadGet padVal (x b ic) pL (t.val + j.val)

/-- Semantics of `F.glu (·, dim := 1)` on a (batch, 2*H, L) tensor:
split the channels into halves A (first) and B (second) and return
`A * sigmoid B` elementwise. -/
def glu {K : Type} [Field K] (exp : K → K) {B H L : ℕ}
    (x : Ten3 K B (2 * H) L) : Ten3 K B H L :=
  fun b c t =>
    x b (Fin.castLE (by omega) c) t *
      sigmoid exp (x b (Fin.cast (by omega) (c.addNat H)) t)

/-- The Encoder module: embedding tables, the two emb/hid projections,
and the convolution stack.  `n_layers` is the length of `convs`;
`scale` holds the constant the constructor computes as `sqrt 0.5`. -/
structure Encoder (K : Type) where
  input_dim : ℕ
  emb_dim : ℕ
  hid_dim : ℕ
  kernel_size : ℕ
  scale : K
  tok_embedding : Fin input_dim → Fin emb_dim → K
  pos_embedding : Fin 100 → Fin emb_dim → K
  emb2hid : LinearParams K emb_dim hid_dim
  hid2emb : LinearParams K hid_dim emb_dim
  convs : List (Conv1dParams K hid_dim (2 * hid_dim) kernel_size)

/-- `Encoder.__init__`: asserts that the kernel size is odd, then stores
the (externally initialised) parameter tensors.  `sqrtHalf` stands for
the computed constant `torch.sqrt 0.5`. -/
def Encoder.init {K : Type} [Field K]
    (input_dim emb_dim hid_dim kernel_size : ℕ) (sqrtHalf : K)
    (tok : Fin input_dim → Fin emb_dim → K)
    (pos : Fin 100 → Fin emb_dim → K)
    (e2h : LinearParams K emb_dim hid_dim)
    (h2e : LinearParams K hid_dim emb_dim)
    (convs : List (Conv1dParams K hid_dim (2 * hid_dim) kernel_size)) :
    Except PyErr (Encoder K) :=
  if kernel_size % 2 = 1 then
    .ok { input_dim := input_dim, emb_dim := emb_dim, hid_dim := hid_dim,
          kernel_size := kernel_size, scale := sqrtHalf,
          tok_embedding := tok, pos_embedding := pos,
          emb2hid := e2h, hid2emb := h2e, convs := convs }
  else .error .assertError

/-- Token plus position embedding of the source batch (the sum at line
51 of the source, before dropout).  The proofs witness that every
lookup into the two tables is in range. -/
def Encoder.embeddedPre {K : Type} [Field K] (enc : Encoder K) {B S : ℕ}
    (src : Fin B → Fin S → ℕ)
    (htok : ∀ b l, src b l < enc.input_dim)
    (hpos : ∀ l : Fin S, (l : ℕ) < 100) : Ten3 K B S enc.emb_dim :=
  fun b l e =>
    enc.tok_embedding ⟨src b l, htok b l⟩ e + enc.pos_embedding ⟨l, hpos l⟩ e

/-- `embedded` in `Encoder.forward`: the summed embeddings after dropout. -/
def Encoder.embD {K : Type} [Field K] (enc : Encoder K) (d : DropFn K)
    {B S : ℕ} (src : Fin B → Fin S → ℕ)
    (htok : ∀ b l, src b l < enc.input_dim)
    (hpos : ∀ l : Fin S, (l : ℕ) < 100) : Ten3 K B S enc.emb_dim :=
  d.app (enc.embeddedPre src htok hpos)

/-- The initial `conv_input`: `emb2hid embedded` permuted to channel-first. -/
def Encoder.convInput0 {K : Type} [Field K] (enc : Encoder K) (d : DropFn K)
    {B S : ℕ} (src : Fin B → Fin S → ℕ)
    (htok : ∀ b l, src b l < enc.input_dim)
    (hpos : ∀ l : Fin S, (l : ℕ) < 100) : Ten3 K B enc.hid_dim S :=
  fun b h s => linApply enc.emb2hid (enc.embD d src htok hpos) b s h

/-- One encoder convolution stage (loop body, lines 65-82): convolve the
dropout-applied input with symmetric zero padding `(k-1)/2`, gate with
GLU, and add the residual — the residual operand is the stage input
`x` from before dropout.  Fails like PyTorch when the convolution's
output would be empty or when the residual add meets mismatched
sequence lengths (only possible for an even kernel). -/
def encStage {K : Type} [Field K] {B H S k : ℕ} (exp : K → K) (scale : K)
    (c : Conv1dParams K H (2 * H) k)
    (D : Ten3 K B H S → Ten3 K B H S) (x : Ten3 K B H S) :
    Except PyErr (Ten3 K B H S) :=
  if _hc : k ≤ S + 2 * ((k - 1) / 2) then
    if hs : conv1dOutLen k ((k - 1) / 2) ((k - 1) / 2) S = S then
      .ok (fun b ch t =>
        (glu exp (conv1d c 0 ((k - 1) / 2) ((k - 1) / 2) (D x)) b ch
            (Fin.cast hs.symm t) + x b ch t) * scale)
    else .error .shapeError
  else .error .shapeError

/-- The encoder's convolution loop.  `last` models the Python variable
`conved`, which is bound only by iterations of the loop body: it stays
`none` when the body never runs. -/
def encLoop {K : Type} [Field K] {B H S k : ℕ} (exp : K → K) (scale : K)
    (D : Ten3 K B H S → Ten3 K B H S) :
    List (Conv1dParams K H (2 * H) k) → Ten3 K B H S →
    Option (Ten3 K B H S) →
    Except PyErr (Ten3 K B H S × Option (Ten3 K B H S))
  | [], ci, last => .ok (ci, last)
  | c :: rest, ci, _ =>
    match encStage exp scale c D ci with
    | .error e => .error e
    | .ok conved => encLoop exp scale D rest conved (some conved)

/-- `Encoder.forward` (lines 36-94): embed tokens and positions (failing
with an index error when a token id or a position is out of table
range), project to hidden size, run the convolution stack, project the
final `conved` back to embedding size, and return it together with
`combined = (conved + embedded) * scale`.  Using the loop variable
`conved` after a zero-iteration loop is Python's unbound-variable
failure. -/
def Encoder.forward {K : Type} [Field K] (enc : Encoder K) (exp : K → K)
    (d : DropFn K) {B S : ℕ} (src : Fin B → Fin S → ℕ) :
    Except PyErr (Ten3 K B S enc.emb_dim × Ten3 K B S enc.emb_dim) :=
  if htok : ∀ b l, src b l < enc.input_dim then
    if hpos : ∀ l : Fin S, (l : ℕ) < 100 then
      match encLoop exp enc.scale (fun x => d.app x) enc.convs
          (enc.convInput0 d src htok hpos) none with
      | .error e => .error e
      | .ok (_, none) => .error .nameError
      | .ok (_, some conved) =>
        .ok (linApply enc.hid2emb (fun b s h => conved b h s),
             fun b s e =>
               (linApply enc.hid2emb (fun b2 s2 h => conved b2 h s2) b s e +
                 enc.embD d src htok hpos b s e) * enc.scale)
    else .error .indexError
  else .error .indexError

/-- The Decoder module.  `pad_idx` is the reserved token id whose value
fills the causal left padding; `scale` holds the constant `sqrt 0.5`. -/
structure Decoder (K : Type) where
  output_dim : ℕ
  emb_dim : ℕ
  hid_dim : ℕ
  kernel_size : ℕ
  pad_idx : ℕ
  scale : K
  tok_embedding : Fin output_dim → Fin emb_dim → K
  pos_embedding : Fin 100 → Fin emb_dim → K
  emb2hid : LinearParams K emb_dim hid_dim
  hid2emb : LinearParams K hid_dim emb_dim
  attn_hid2emb : LinearParams K hid_dim emb_dim
  attn_emb2hid : LinearParams K emb_dim hid_dim
  out : LinearParams K emb_dim output_dim
  convs : List (Conv1dParams K hid_dim (2 * hid_dim) kernel_size)

/-- Line 133: `conved_emb = attn_hid2emb (conved.permute 0 2 1)`. -/
def attnConvedEmb {K : Type} [Field K] (dec : Decoder K) {B T : ℕ}
    (conved : Ten3 K B dec.hid_dim T) : Ten3 K B T dec.emb_dim :=
  linApply dec.attn_hid2emb (fun b t h => conved b h t)

/-- Line 137: `combined = (embedded + conved_emb) * scale`. -/
def attnCombined {K : Type} [Field K] (dec : Decoder K) {B T : ℕ}
    (embedded : Ten3 K B T dec.emb_dim) (conved : Ten3 K B dec.hid_dim T) :
    Ten3 K B T dec.emb_dim :=
  fun b t e => (embedded b t e + attnConvedEmb dec conved b t e) * dec.scale

/-- Line 141: `energy = combined @ encoder_conved.permute 0 2 1`. -/
def attnEnergy {K : Type} [Field K] (dec : Decoder K) {B T S : ℕ}
    (embedded : Ten3 K B T dec.emb_dim) (conved : Ten3 K B dec.hid_dim T)
    (encoder_conved : Ten3 K B S dec.emb_dim) : Ten3 K B T S :=
  fun b i j =>
    ∑ e : Fin dec.emb_dim, attnCombined dec embedded conved b i e *
      encoder_conved b j e

/-- Line 145: `attention = F.softmax (energy, dim := 2)`. -/
def attnWeights {K : Type} [Field K] (dec : Decoder K) (exp : K → K)
    {B T S : ℕ} (embedded : Ten3 K B T dec.emb_dim)
    (conved : Ten3 K B dec.hid_dim T)
    (encoder_conved : Ten3 K B S dec.emb_dim) : Ten3 K B T S :=
  fun b i j =>
    exp (attnEnergy dec embedded conved encoder_conved b i j) /
      ∑ j2 : Fin S, exp (attnEnergy dec embedded conved encoder_conved b i j2)

/-- Line 149: `attended_encoding = attention @ (encoder_conved + encoder_combined)`. -/
def attnAttended {K : Type} [Field K] (dec : Decoder K) (exp : K → K)
    {B T S : ℕ} (embedded : Ten3 K B T dec.emb_dim)
    (conved : Ten3 K B dec.hid_dim T)
    (encoder_conved encoder_combined : Ten3 K B S dec.emb_dim) :
    Ten3 K B T dec.emb_dim :=
  fun b i e =>
    ∑ j : Fin S, attnWeights dec exp embedded conved encoder_conved b i j *
      (encoder_conved b j e + encoder_combined b j e)

/-- Line 154: `attended_encoding = attn_emb2hid attended_encoding`. -/
def attnAttendedHid {K : Type} [Field K] (dec : Decoder K) (exp : K → K)
    {B T S : ℕ} (embedded : Ten3 K B T dec.emb_dim)
    (conved : Ten3 K B dec.hid_dim T)
    (encoder_conved encoder_combined : Ten3 K B S dec.emb_dim) :
    Ten3 K B T dec.hid_dim :=
  linApply dec.attn_emb2hid
    (attnAttended dec exp embedded conved encoder_conved encoder_combined)

/-- `Decoder.calculate_attention` (lines 127-162): returns the softmax
attention weights and `attended_combined = (conved + attended.permute) * scale`. -/
def Decoder.calculate_attention {K : Type} [Field K] (dec : Decoder K)
    (exp : K → K) {B T S : ℕ} (embedded : Ten3 K B T dec.emb_dim)
    (conved : Ten3 K B dec.hid_dim T)
    (encoder_conved encoder_combined : Ten3 K B S dec.emb_dim) :
    Ten3 K B T S × Ten3 K B dec.hid_dim T :=
  (attnWeights dec exp embedded conved encoder_conved,
   fun b h t =>
     (conved b h t +
       attnAttendedHid dec exp embedded conved encoder_conved
         encoder_combined b t h) * dec.scale)

/-- One decoder convolution stage (loop body, lines 195-227): apply
dropout to the stage input, prepend `kernel_size - 1` positions filled
with `pad_idx` (causal left padding, nothing on the right), convolve,
gate with GLU, run the attention step, and add the residual — the
residual operand is the dropout-applied tensor `D ci`, the very tensor
that was padded and convolved.  Fails like PyTorch when the convolution
output would be empty. -/
def decStage {K : Type} [Field K] (exp : K → K) (dec : Decoder K)
    {B T S : ℕ}
    (c : Conv1dParams K dec.hid_dim (2 * dec.hid_dim) dec.kernel_size)
    (embedded : Ten3 K B T dec.emb_dim)
    (encoder_conved encoder_combined : Ten3 K B S dec.emb_dim)
    (D : Ten3 K B dec.hid_dim T → Ten3 K B dec.hid_dim T)
    (ci : Ten3 K B dec.hid_dim T) :
    Except PyErr (Ten3 K B dec.hid_dim T × Ten3 K B T S) :=
  if _hc : dec.kernel_size ≤ T + (dec.kernel_size - 1) + 0 then
    if hs : conv1dOutLen dec.kernel_size (dec.kernel_size - 1) 0 T = T then
      .ok (fun b h t =>
        ((dec.calculate_attention exp embedded
            (fun b2 h2 t2 =>
              glu exp (conv1d c ((dec.pad_idx : ℕ) : K)
                  (dec.kernel_size - 1) 0 (D ci)) b2 h2 (Fin.cast hs.symm t2))
            encoder_conved encoder_combined).2 b h t + D ci b h t) * dec.scale,
        (dec.calculate_attention exp embedded
            (fun b2 h2 t2 =>
              glu exp (conv1d c ((dec.pad_idx : ℕ) : K)
                  (dec.kernel_size - 1) 0 (D ci)) b2 h2 (Fin.cast hs.symm t2))
            encoder_conved encoder_combined).1)
    else .error .shapeError
  else .error .shapeError

/-- The decoder's convolution loop.  `last` models the Python variables
`conved` and `attention`, which are bound only by iterations of the
loop body. -/
def decLoop {K : Type} [Field K] (exp : K → K) (dec : Decoder K)
    {B T S : ℕ} (embedded : Ten3 K B T dec.emb_dim)
    (encoder_conved encoder_combined : Ten3 K B S dec.emb_dim)
    (D : Ten3 K B dec.hid_dim T → Ten3 K B dec.hid_dim T) :
    List (Conv1dParams K dec.hid_dim (2 * dec.hid_dim) dec.kernel_size) →
    Ten3 K B dec.hid_dim T →
    Option (Ten3 K B dec.hid_dim T × Ten3 K B T S) →
    Except PyErr
      (Ten3 K B dec.hid_dim T ×
        Option (Ten3 K B dec.hid_dim T × Ten3 K B T S))
  | [], ci, last => .ok (ci, last)
  | c :: rest, ci, _ =>
    match decStage exp dec c embedded encoder_conved encoder_combined D ci with
    | .error e => .error e
    | .ok (conved, attention) =>
      decLoop exp dec embedded encoder_conved encoder_combined D rest
        conved (some (conved, attention))

/-- Token plus position embedding of the target batch (line 181, before
dropout), with in-range witnesses for both table lookups. -/
def Decoder.embeddedPre {K : Type} [Field K] (dec : Decoder K) {B T : ℕ}
    (trg : Fin B → Fin T → ℕ)
    (htok : ∀ b l, trg b l < dec.output_dim)
    (hpos : ∀ l : Fin T, (l : ℕ) < 100) : Ten3 K B T dec.emb_dim :=
  fun b l e =>
    dec.tok_embedding ⟨trg b l, htok b l⟩ e + dec.pos_embedding ⟨l, hpos l⟩ e

/-- `embedded` in `Decoder.forward`: the summed embeddings after dropout. -/
def Decoder.embD {K : Type} [Field K] (dec : Decoder K) (d : DropFn K)
    {B T : ℕ} (trg : Fin B → Fin T → ℕ)
    (htok : ∀ b l, trg b l < dec.output_dim)
    (hpos : ∀ l : Fin T, (l : ℕ) < 100) : Ten3 K B T dec.emb_dim :=
  d.app (dec.embeddedPre trg htok hpos)

/-- The decoder's initial `conv_input`: `emb2hid embedded` permuted to
channel-first. -/
def Decoder.convInput0 {K : Type} [Field K] (dec : Decoder K) (d : DropFn K)
    {B T : ℕ} (trg : Fin B → Fin T → ℕ)
    (htok : ∀ b l, trg b l < dec.output_dim)
    (hpos : ∀ l : Fin T, (l : ℕ) < 100) : Ten3 K B dec.hid_dim T :=
  fun b h t => linApply dec.emb2hid (dec.embD d trg htok hpos) b t h

/-- `Decoder.forward` (lines 164-237): embed tokens and positions
(failing with an index error when out of table range), project to
hidden size, run the causal convolution stack with its per-layer
attention step, project back, apply dropout, and project to
output-vocabulary logits.  The attention returned is the one bound by
the last executed layer; a zero-iteration loop leaves `conved` and
`attention` unbound (Python's NameError). -/
def Decoder.forward {K : Type} [Field K] (dec : Decoder K) (exp : K → K)
    (d : DropFn K) {B T S : ℕ} (trg : Fin B → Fin T → ℕ)
    (encoder_conved encoder_combined : Ten3 K B S dec.emb_dim) :
    Except PyErr (Ten3 K B T dec.output_dim × Ten3 K B T S) :=
  if htok : ∀ b l, trg b l < dec.output_dim then
    if hpos : ∀ l : Fin T, (l : ℕ) < 100 then
      match decLoop exp dec (dec.embD d trg htok hpos) encoder_conved
          encoder_combined (fun x => d.app x) dec.convs
          (dec.convInput0 d trg htok hpos) none with
      | .error e => .error e
      | .ok (_, none) => .error .nameError
      | .ok (_, some (conved, attention)) =>
        .ok (linApply dec.out
              (d.app (linApply dec.hid2emb (fun b t h => conved b h t))),
             attention)
    else .error .indexError
  else .error .indexError

/-- The Seq2Seq wrapper: its two sub-modules. -/
structure Seq2Seq (K : Type) where
  encoder : Encoder K
  decoder : Decoder K

/-- `Seq2Seq.forward` (lines 247-267): run the encoder on the source
batch, then hand the target batch and the encoder's two outputs to the
decoder, returning the decoder's outputs unchanged.  The embedding
widths of the two sub-modules must agree for the decoder's attention
matmul to be well formed; a mismatch is a shape failure. -/
def Seq2Seq.forward {K : Type} [Field K] (m : Seq2Seq K) (exp : K → K)
    (d : DropFn K) {B S T : ℕ} (src : Fin B → Fin S → ℕ)
    (trg : Fin B → Fin T → ℕ) :
    Except PyErr (Ten3 K B T m.decoder.output_dim × Ten3 K B T S) :=
  match m.encoder.forward exp d src with
  | .error e => .error e
  | .ok (encoder_conved, encoder_combined) =>
    if h : m.encoder.emb_dim = m.decoder.emb_dim then
      m.decoder.forward exp d trg
        (fun b s e => encoder_conved b s (Fin.cast h.symm e))
        (fun b s e => encoder_combined b s (Fin.cast h.symm e))
    else .error .shapeError

/-- Two (batch, len, feat) tensors agree at all positions `< p` of the
middle (sequence) axis. -/
def AgreeL2 (p : ℕ) {K : Type} {B L F : ℕ} (x y : Ten3 K B L F) : Prop :=
  ∀ b (l : Fin L) f, (l : ℕ) < p → x b l f = y b l f

/-- Two channel-first (batch, chan, len) tensors agree at all positions
`< p` of the last (sequence) axis. -/
def AgreeL3 (p : ℕ) {K : Type} {B C L : ℕ} (x y : Ten3 K B C L) : Prop :=
  ∀ b c (t : Fin L), (t : ℕ) < p → x b c t = y b c t

/-- The attention slot of the decoder loop state always holds softmax
weights computed by `calculate_attention` from some gated tensor. -/
def GoodAttn {K : Type} [Field K] (dec : Decoder K) (exp : K → K)
    {B T S : ℕ} (embedded : Ten3 K B T dec.emb_dim)
    (encoder_conved : Ten3 K B S dec.emb_dim)
    (o : Option (Ten3 K B dec.hid_dim T × Ten3 K B T S)) : Prop :=
  ∀ cv a, o = some (cv, a) →
    ∃ g, a = attnWeights dec exp embedded g encoder_conved

/-- Relation between two decoder loop states: both unbound, or both
bound with `conved` components agreeing on the length-`p` prefix. -/
def CvRel (p : ℕ) {K : Type} {B C L S : ℕ} :
    Option (Ten3 K B C L × Ten3 K B L S) →
    Option (Ten3 K B C L × Ten3 K B L S) → Prop
  | none, none => True
  | some (c1, _), some (c2, _) => AgreeL3 p c1 c2
  | _, _ => False

/-- Modelled from the claim's alternative formulation (not in the
source): an encoder stage whose residual adds the dropout-applied input
`D x` instead of the raw stage input `x`.  It exists only to compare
the two residual conventions. -/
def encStageResAfterDrop {K : Type} [Field K] {B H S k : ℕ} (exp : K → K)
    (scale : K) (c : Conv1dParams K H (2 * H) k)
    (D : Ten3 K B H S → Ten3 K B H S) (x : Ten3 K B H S) :
    Except PyErr (Ten3 K B H S) :=
  if _hc : k ≤ S + 2 * ((k - 1) / 2) then
    if hs : conv1dOutLen k ((k - 1) / 2) ((k - 1) / 2) S = S then
      .ok (fun b ch t =>
        (glu exp (conv1d c 0 ((k - 1) / 2) ((k - 1) / 2) (D x)) b ch
            (Fin.cast hs.symm t) + D x b ch t) * scale)
    else .error .shapeError
  else .error .shapeError

/-- Error component of an `Except`, for stating concrete failures. -/
def errOf {e a : Type} : Except e a → Option e
  | .error er => some er
  | .ok _ => none

/-- Success flag of an `Except`. -/
def isOkE {e a : Type} : Except e a → Bool
  | .ok _ => true
  | .error _ => false

/-- Sum of one attention row of a decoder result (arbitrary marker value
on the error side). -/
def rowSumAt {B T S od : ℕ}
    (r : Except PyErr (Ten3 ℚ B T od × Ten3 ℚ B T S)) (b : Fin B)
    (i : Fin T) : ℚ :=
  match r with
  | .ok pr => ∑ j : Fin S, pr.2 b i j
  | .error _ => 37

namespace Fix

/-- All-zero 1x1 linear layer. -/
def L0 : LinearParams ℚ 1 1 := ⟨fun _ _ => 0, fun _ => 0⟩

/-- All-zero width-1 convolution, 1 channel in, 2 out. -/
def C0 : Conv1dParams ℚ 1 (2 * 1) 1 := ⟨fun _ _ _ => 0, fun _ => 0⟩

/-- All-zero width-3 convolution, 1 channel in, 2 out. -/
def C3f : Conv1dParams ℚ 1 (2 * 1) 3 := ⟨fun _ _ _ => 0, fun _ => 0⟩

/-- All-zero (1,1,1) tensor. -/
def zero3 : Ten3 ℚ 1 1 1 := fun _ _ _ => 0

/-- A scalar exponential for tests: constantly one (positive). -/
def oneExp : ℚ → ℚ := fun _ => 1

/-- A one-token batch. -/
def tok0 : Fin 1 → Fin 1 → ℕ := fun _ _ => 0

/-- A length-101 batch, exceeding the position capacity. -/
def tokLong : Fin 1 → Fin 101 → ℕ := fun _ _ => 0

/-- A length-0 batch. -/
def tok00 : Fin 1 → Fin 0 → ℕ := fun _ _ => 0

/-- Zero encoder outputs of shape (1, 1, 1). -/
def enc3 : Ten3 ℚ 1 1 1 := fun _ _ _ => 0

/-- Zero encoder outputs of source length 0. -/
def encS0 : Ten3 ℚ 1 0 1 := fun _ _ _ => 0

/-- A tiny all-zero one-layer encoder with kernel size 1. -/
def encA : Encoder ℚ :=
  { input_dim := 1, emb_dim := 1, hid_dim := 1, kernel_size := 1,
    scale := 1, tok_embedding := fun _ _ => 0,
    pos_embedding := fun _ _ => 0, emb2hid := L0, hid2emb := L0,
    convs := [C0] }

/-- The same encoder with an empty convolution stack. -/
def encE : Encoder ℚ :=
  { input_dim := 1, emb_dim := 1, hid_dim := 1, kernel_size := 1,
    scale := 1, tok_embedding := fun _ _ => 0,
    pos_embedding := fun _ _ => 0, emb2hid := L0, hid2emb := L0,
    convs := [] }

/-- A tiny all-zero one-layer decoder. -/
def decA : Decoder ℚ :=
  { output_dim := 1, emb_dim := 1, hid_dim := 1, kernel_size := 1,
    pad_idx := 0, scale := 1, tok_embedding := fun _ _ => 0,
    pos_embedding := fun _ _ => 0, emb2hid := L0, hid2emb := L0,
    attn_hid2emb := L0, attn_emb2hid := L0, out := L0, convs := [C0] }

/-- The wrapper over the two tiny modules. -/
def mA : Seq2Seq ℚ := ⟨encA, decA⟩

end Fix

/-- Arithmetic of the encoder's symmetric padding: with an odd kernel
and a nonempty sequence the convolution is valid and length-preserving. -/
lemma encOddOut {k S : ℕ} (hk : k % 2 = 1) (hS : 1 ≤ S) :
    k ≤ S + 2 * ((k - 1) / 2) ∧
      conv1dOutLen k ((k - 1) / 2) ((k - 1) / 2) S = S := by
  unfold conv1dOutLen
  omega

/-- Reduction of an encoder stage when its two shape conditions hold. -/
lemma encStage_eq {K : Type} [Field K] {B H S k : ℕ} (exp : K → K)
    (scale : K) (c : Conv1dParams K H (2 * H) k)
    (D : Ten3 K B H S → Ten3 K B H S) (x : Ten3 K B H S)
    (hc : k ≤ S + 2 * ((k - 1) / 2))
    (hs : conv1dOutLen k ((k - 1) / 2) ((k - 1) / 2) S = S) :
    encStage exp scale c D x = .ok (fun b ch t =>
      (glu exp (conv1d c 0 ((k - 1) / 2) ((k - 1) / 2) (D x)) b ch
          (Fin.cast hs.symm t) + x b ch t) * scale) := by
  unfold encStage
  rw [dif_pos hc, dif_pos hs]

/-- An encoder stage can only fail with a shape error. -/
lemma encStage_err {K : Type} [Field K] {B H S k : ℕ} {exp : K → K}
    {scale : K} {c : Conv1dParams K H (2 * H) k}
    {D : Ten3 K B H S → Ten3 K B H S} {x : Ten3 K B H S} {e : PyErr}
    (h : encStage exp scale c D x = .error e) : e = .shapeError := by
  unfold encStage at h
  by_cases hc : k ≤ S + 2 * ((k - 1) / 2)
  · rw [dif_pos hc] at h
    by_cases hs : conv1dOutLen k ((k - 1) / 2) ((k - 1) / 2) S = S
    · rw [dif_pos hs] at h
      exact absurd h (by simp)
    · rw [dif_neg hs] at h
      exact ((Except.error.injEq _ _).mp h).symm
  · rw [dif_neg hc] at h
    exact ((Except.error.injEq _ _).mp h).symm

/-- With an odd kernel and a nonempty sequence, the encoder loop
succeeds, and ends with `conved` bound whenever it ran at least once. -/
lemma encLoop_ok {K : Type} [Field K] {B H S k : ℕ} (exp : K → K)
    (scale : K) (D : Ten3 K B H S → Ten3 K B H S)
    (hk : k % 2 = 1) (hS : 1 ≤ S) :
    ∀ (convs : List (Conv1dParams K H (2 * H) k)) (ci : Ten3 K B H S)
      (last : Option (Ten3 K B H S)),
      ∃ ci2 last2, encLoop exp scale D convs ci last = .ok (ci2, last2) ∧
        (convs = [] → last2 = last) ∧
        (convs ≠ [] → ∃ cv, last2 = some cv) := by
  intro convs
  induction convs with
  | nil => exact fun ci last => ⟨ci, last, rfl, fun _ => rfl, fun h => absurd rfl h⟩
  | cons c rest ih =>
    intro ci last
    obtain ⟨hc, hs⟩ := encOddOut hk hS
    cases rest with
    | nil =>
      refine ⟨fun b ch t =>
          (glu exp (conv1d c 0 ((k - 1) / 2) ((k - 1) / 2) (D ci)) b ch
              (Fin.cast hs.symm t) + ci b ch t) * scale,
        some (fun b ch t =>
          (glu exp (conv1d c 0 ((k - 1) / 2) ((k - 1) / 2) (D ci)) b ch
              (Fin.cast hs.symm t) + ci b ch t) * scale),
        ?_, fun h => absurd h (by simp), fun _ => ⟨_, rfl⟩⟩
      rw [encLoop, encStage_eq exp scale c D ci hc hs]
      rfl
    | cons c2 r2 =>
      obtain ⟨ci2, last2, hrun, _, hne⟩ := ih
        (fun b ch t =>
          (glu exp (conv1d c 0 ((k - 1) / 2) ((k - 1) / 2) (D ci)) b ch
              (Fin.cast hs.symm t) + ci b ch t) * scale)
        (some (fun b ch t =>
          (glu exp (conv1d c 0 ((k - 1) / 2) ((k - 1) / 2) (D ci)) b ch
              (Fin.cast hs.symm t) + ci b ch t) * scale))
      refine ⟨ci2, last2, ?_, fun h => absurd h (by simp),
        fun _ => hne (by simp)⟩
      rw [encLoop, encStage_eq exp scale c D ci hc hs]
      exact hrun

/-- The encoder loop can only fail with a shape error. -/
lemma encLoop_err {K : Type} [Field K] {B H S k : ℕ} {exp : K → K}
    {scale : K} {D : Ten3 K B H S → Ten3 K B H S} :
    ∀ {convs : List (Conv1dParams K H (2 * H) k)} {ci : Ten3 K B H S}
      {last : Option (Ten3 K B H S)} {e : PyErr},
      encLoop exp scale D convs ci last = .error e → e = .shapeError := by
  intro convs
  induction convs with
  | nil => intro ci last e h; exact absurd h (by simp [encLoop])
  | cons c rest ih =>
    intro ci last e h
    rw [encLoop] at h
    rcases hst : encStage exp scale c D ci with e2 | conved
    · rw [hst] at h
      injection h with h2
      exact h2.symm ▸ encStage_err hst
    · rw [hst] at h
      exact ih h

/-- With an odd kernel, a nonempty sequence, at least one layer and
in-range lookups, the encoder forward succeeds. -/
lemma encForward_ok {K : Type} [Field K] (enc : Encoder K) (exp : K → K)
    (d : DropFn K) {B S : ℕ} (src : Fin B → Fin S → ℕ)
    (hk : enc.kernel_size % 2 = 1) (hS : 1 ≤ S) (hn : enc.convs ≠ [])
    (htok : ∀ b l, src b l < enc.input_dim)
    (hpos : ∀ l : Fin S, (l : ℕ) < 100) :
    ∃ conved combined, enc.forward exp d src = .ok (conved, combined) := by
  obtain ⟨ci2, last2, hrun, _, hne⟩ :=
    encLoop_ok exp enc.scale (fun x => d.app x) hk hS enc.convs
      (enc.convInput0 d src htok hpos) none
  obtain ⟨cv, hcv⟩ := hne hn
  subst hcv
  unfold Encoder.forward
  rw [dif_pos htok, dif_pos hpos, hrun]
  exact ⟨_, _, rfl⟩

/-- The encoder forward never fails with the constructor's assertion
failure: the odd-kernel check is not re-run inside `forward`. -/
lemma encForward_no_assert {K : Type} [Field K] (enc : Encoder K)
    (exp : K → K) (d : DropFn K) {B S : ℕ} (src : Fin B → Fin S → ℕ) :
    enc.forward exp d src ≠ .error .assertError := by
  unfold Encoder.forward
  by_cases htok : ∀ b l, src b l < enc.input_dim
  · rw [dif_pos htok]
    by_cases hpos : ∀ l : Fin S, (l : ℕ) < 100
    · rw [dif_pos hpos]
      rcases hr : encLoop exp enc.scale (fun x => d.app x) enc.convs
          (enc.convInput0 d src htok hpos) none with e | p
      · intro h
        injection h with h2
        have := encLoop_err hr
        rw [h2] at this
        exact absurd this (by decide)
      · rcases p with ⟨ci2, _ | cv⟩
        · intro h
          injection h with h2
          exact absurd h2 (by decide)
        · simp
    · rw [dif_neg hpos]
      intro h
      injection h with h2
      exact absurd h2 (by decide)
  · rw [dif_neg htok]
    intro h
    injection h with h2
    exact absurd h2 (by decide)

/-- Arithmetic of the decoder's causal padding: with a positive kernel
and a nonempty target the convolution is valid and length-preserving. -/
lemma decOut {k T : ℕ} (hk : 1 ≤ k) (hT : 1 ≤ T) :
    k ≤ T + (k - 1) + 0 ∧ conv1dOutLen k (k - 1) 0 T = T := by
  unfold conv1dOutLen
  omega

/-- Reduction of a decoder stage when its shape conditions hold: the
attention component is the softmax weights of that stage. -/
lemma decStage_ok {K : Type} [Field K] (exp : K → K) (dec : Decoder K)
    {B T S : ℕ}
    (c : Conv1dParams K dec.hid_dim (2 * dec.hid_dim) dec.kernel_size)
    (embedded : Ten3 K B T dec.emb_dim)
    (encoder_conved encoder_combined : Ten3 K B S dec.emb_dim)
    (D : Ten3 K B dec.hid_dim T → Ten3 K B dec.hid_dim T)
    (ci : Ten3 K B dec.hid_dim T)
    (hc : dec.kernel_size ≤ T + (dec.kernel_size - 1) + 0)
    (hs : conv1dOutLen dec.kernel_size (dec.kernel_size - 1) 0 T = T) :
    decStage exp dec c embedded encoder_conved encoder_combined D ci =
      .ok (fun b h t =>
        ((dec.calculate_attention exp embedded
            (fun b2 h2 t2 =>
              glu exp (conv1d c ((dec.pad_idx : ℕ) : K)
                  (dec.kernel_size - 1) 0 (D ci)) b2 h2 (Fin.cast hs.symm t2))
            encoder_conved encoder_combined).2 b h t + D ci b h t) * dec.scale,
        attnWeights dec exp embedded
          (fun b2 h2 t2 =>
            glu exp (conv1d c ((dec.pad_idx : ℕ) : K)
                (dec.kernel_size - 1) 0 (D ci)) b2 h2 (Fin.cast hs.symm t2))
          encoder_conved) := by
  unfold decStage
  rw [dif_pos hc, dif_pos hs]
  rfl

/-- A decoder stage can only fail with a shape error. -/
lemma decStage_err {K : Type} [Field K] {exp : K → K} {dec : Decoder K}
    {B T S : ℕ}
    {c : Conv1dParams K dec.hid_dim (2 * dec.hid_dim) dec.kernel_size}
    {embedded : Ten3 K B T dec.emb_dim}
    {encoder_conved encoder_combined : Ten3 K B S dec.emb_dim}
    {D : Ten3 K B dec.hid_dim T → Ten3 K B dec.hid_dim T}
    {ci : Ten3 K B dec.hid_dim T} {e : PyErr}
    (h : decStage exp dec c embedded encoder_conved encoder_combined D ci =
      .error e) : e = .shapeError := by
  unfold decStage at h
  by_cases hc : dec.kernel_size ≤ T + (dec.kernel_size - 1) + 0
  · rw [dif_pos hc] at h
    by_cases hs : conv1dOutLen dec.kernel_size (dec.kernel_size - 1) 0 T = T
    · rw [dif_pos hs] at h
      exact absurd h (by simp)
    · rw [dif_neg hs] at h
      exact ((Except.error.injEq _ _).mp h).symm
  · rw [dif_neg hc] at h
    exact ((Except.error.injEq _ _).mp h).symm

/-- With a positive kernel and a nonempty target, the decoder loop
succeeds, preserves `GoodAttn`, and binds `(conved, attention)` whenever
it ran at least once. -/
lemma decLoop_ok {K : Type} [Field K] (exp : K → K) (dec : Decoder K)
    {B T S : ℕ} (embedded : Ten3 K B T dec.emb_dim)
    (encoder_conved encoder_combined : Ten3 K B S dec.emb_dim)
    (D : Ten3 K B dec.hid_dim T → Ten3 K B dec.hid_dim T)
    (hk : 1 ≤ dec.kernel_size) (hT : 1 ≤ T) :
    ∀ (convs : List (Conv1dParams K dec.hid_dim (2 * dec.hid_dim)
        dec.kernel_size))
      (ci : Ten3 K B dec.hid_dim T)
      (last : Option (Ten3 K B dec.hid_dim T × Ten3 K B T S)),
      GoodAttn dec exp embedded encoder_conved last →
      ∃ ci2 last2,
        decLoop exp dec embedded encoder_conved encoder_combined D convs
          ci last = .ok (ci2, last2) ∧
        GoodAttn dec exp embedded encoder_conved last2 ∧
        (convs ≠ [] → ∃ cv a, last2 = some (cv, a)) := by
  intro convs
  induction convs with
  | nil =>
    exact fun ci last hg => ⟨ci, last, rfl, hg, fun h => absurd rfl h⟩
  | cons c rest ih =>
    intro ci last _
    obtain ⟨hc, hs⟩ := decOut hk hT
    obtain ⟨ci2, last2, hrun, hg2, hne⟩ := ih
      (fun b h t =>
        ((dec.calculate_attention exp embedded
            (fun b2 h2 t2 =>
              glu exp (conv1d c ((dec.pad_idx : ℕ) : K)
                  (dec.kernel_size - 1) 0 (D ci)) b2 h2 (Fin.cast hs.symm t2))
            encoder_conved encoder_combined).2 b h t + D ci b h t) * dec.scale)
      (some (fun b h t =>
        ((dec.calculate_attention exp embedded
            (fun b2 h2 t2 =>
              glu exp (conv1d c ((dec.pad_idx : ℕ) : K)
                  (dec.kernel_size - 1) 0 (D ci)) b2 h2 (Fin.cast hs.symm t2))
            encoder_conved encoder_combined).2 b h t + D ci b h t) * dec.scale,
        attnWeights dec exp embedded
          (fun b2 h2 t2 =>
            glu exp (conv1d c ((dec.pad_idx : ℕ) : K)
                (dec.kernel_size - 1) 0 (D ci)) b2 h2 (Fin.cast hs.symm t2))
          encoder_conved))
      (by
        intro cv a hsome
        injection hsome with h2
        exact ⟨_, (congrArg Prod.snd h2).symm⟩)
    refine ⟨ci2, last2, ?_, hg2, ?_⟩
    · rw [decLoop, decStage_ok exp dec c embedded encoder_conved
        encoder_combined D ci hc hs]
      exact hrun
    · intro _
      cases rest with
      | nil =>
        cases hrun
        exact ⟨_, _, rfl⟩
      | cons c2 r2 => exact hne (by simp)

/-- The decoder loop can only fail with a shape error. -/
lemma decLoop_err {K : Type} [Field K] {exp : K → K} {dec : Decoder K}
    {B T S : ℕ} {embedded : Ten3 K B T dec.emb_dim}
    {encoder_conved encoder_combined : Ten3 K B S dec.emb_dim}
    {D : Ten3 K B dec.hid_dim T → Ten3 K B dec.hid_dim T} :
    ∀ {convs : List (Conv1dParams K dec.hid_dim (2 * dec.hid_dim)
        dec.kernel_size)}
      {ci : Ten3 K B dec.hid_dim T}
      {last : Option (Ten3 K B dec.hid_dim T × Ten3 K B T S)} {e : PyErr},
      decLoop exp dec embedded encoder_conved encoder_combined D convs
        ci last = .error e → e = .shapeError := by
  intro convs
  induction convs with
  | nil => intro ci last e h; exact absurd h (by simp [decLoop])
  | cons c rest ih =>
    intro ci last e h
    rw [decLoop] at h
    rcases hst : decStage exp dec c embedded encoder_conved
        encoder_combined D ci with e2 | pr
    · rw [hst] at h
      injection h with h2
      exact h2.symm ▸ decStage_err hst
    · rw [hst] at h
      exact ih h

/-- With a positive kernel, a nonempty target, at least one layer and
in-range lookups, the decoder forward succeeds and the attention it
returns is the softmax weights of the last executed layer. -/
lemma decForward_attn {K : Type} [Field K] (dec : Decoder K) (exp : K → K)
    (d : DropFn K) {B T S : ℕ} (trg : Fin B → Fin T → ℕ)
    (encoder_conved encoder_combined : Ten3 K B S dec.emb_dim)
    (hk : 1 ≤ dec.kernel_size) (hT : 1 ≤ T) (hn : dec.convs ≠ [])
    (htok : ∀ b l, trg b l < dec.output_dim)
    (hpos : ∀ l : Fin T, (l : ℕ) < 100) :
    ∃ o g, dec.forward exp d trg encoder_conved encoder_combined =
      .ok (o, attnWeights dec exp (dec.embD d trg htok hpos) g
        encoder_conved) := by
  obtain ⟨ci2, last2, hrun, hg, hne⟩ :=
    decLoop_ok exp dec (dec.embD d trg htok hpos) encoder_conved
      encoder_combined (fun x => d.app x) hk hT dec.convs
      (dec.convInput0 d trg htok hpos) none (by intro cv a h; cases h)
  obtain ⟨cv, a, hsome⟩ := hne hn
  subst hsome
  obtain ⟨g, hg2⟩ := hg cv a rfl
  subst hg2
  unfold Decoder.forward
  rw [dif_pos htok, dif_pos hpos, hrun]
  exact ⟨_, g, rfl⟩

/-- Success form of the decoder forward used by the shape claims. -/
lemma decForward_ok {K : Type} [Field K] (dec : Decoder K) (exp : K → K)
    (d : DropFn K) {B T S : ℕ} (trg : Fin B → Fin T → ℕ)
    (encoder_conved encoder_combined : Ten3 K B S dec.emb_dim)
    (hk : 1 ≤ dec.kernel_size) (hT : 1 ≤ T) (hn : dec.convs ≠ [])
    (htok : ∀ b l, trg b l < dec.output_dim)
    (hpos : ∀ l : Fin T, (l : ℕ) < 100) :
    ∃ o a, dec.forward exp d trg encoder_conved encoder_combined =
      .ok (o, a) := by
  obtain ⟨o, g, h⟩ := decForward_attn dec exp d trg encoder_conved
    encoder_combined hk hT hn htok hpos
  exact ⟨o, _, h⟩

/-- Softmax over a nonempty source axis with a positive exponential is
row-stochastic: nonnegative entries summing to one. -/
lemma attnWeights_rowst {K : Type} [LinearOrderedField K] (dec : Decoder K)
    {exp : K → K} (hexp : ∀ x, 0 < exp x) {B T S : ℕ} (hS : 1 ≤ S)
    (embedded : Ten3 K B T dec.emb_dim) (g : Ten3 K B dec.hid_dim T)
    (encoder_conved : Ten3 K B S dec.emb_dim) (b : Fin B) (i : Fin T) :
    (∑ j : Fin S, attnWeights dec exp embedded g encoder_conved b i j) = 1 ∧
      ∀ j, 0 ≤ attnWeights dec exp embedded g encoder_conved b i j := by
  have hne : (Finset.univ : Finset (Fin S)).Nonempty :=
    ⟨⟨0, hS⟩, Finset.mem_univ _⟩
  have hpos : 0 < ∑ j2 : Fin S,
      exp (attnEnergy dec embedded g encoder_conved b i j2) :=
    Finset.sum_pos (fun j _ => hexp _) hne
  constructor
  · unfold attnWeights
    rw [← Finset.sum_div]
    exact div_self (ne_of_gt hpos)
  · intro j
    exact div_nonneg (le_of_lt (hexp _)) (le_of_lt hpos)

/-- With no convolution layers, the encoder forward hits Python's
unbound-variable failure on `conved` (given the lookups are in range). -/
lemma encForward_nil {K : Type} [Field K] (enc : Encoder K) (exp : K → K)
    (d : DropFn K) {B S : ℕ} (src : Fin B → Fin S → ℕ)
    (hnil : enc.convs = []) (htok : ∀ b l, src b l < enc.input_dim)
    (hpos : ∀ l : Fin S, (l : ℕ) < 100) :
    enc.forward exp d src = .error .nameError := by
  unfold Encoder.forward
  rw [dif_pos htok, dif_pos hpos, hnil]
  rfl

/-- With no convolution layers, the decoder forward hits Python's
unbound-variable failure on `conved`/`attention`. -/
lemma decForward_nil {K : Type} [Field K] (dec : Decoder K) (exp : K → K)
    (d : DropFn K) {B T S : ℕ} (trg : Fin B → Fin T → ℕ)
    (encoder_conved encoder_combined : Ten3 K B S dec.emb_dim)
    (hnil : dec.convs = []) (htok : ∀ b l, trg b l < dec.output_dim)
    (hpos : ∀ l : Fin T, (l : ℕ) < 100) :
    dec.forward exp d trg encoder_conved encoder_combined =
      .error .nameError := by
  unfold Decoder.forward
  rw [dif_pos htok, dif_pos hpos, hnil]
  rfl

/-- The encoder forward returns a value only when there is at least one
convolution layer. -/
lemma encForward_ok_imp {K : Type} [Field K] (enc : Encoder K)
    (exp : K → K) (d : DropFn K) {B S : ℕ} (src : Fin B → Fin S → ℕ)
    (r : Ten3 K B S enc.emb_dim × Ten3 K B S enc.emb_dim)
    (h : enc.forward exp d src = .ok r) : enc.convs ≠ [] := by
  intro hnil
  unfold Encoder.forward at h
  by_cases htok : ∀ b l, src b l < enc.input_dim
  · rw [dif_pos htok] at h
    by_cases hpos : ∀ l : Fin S, (l : ℕ) < 100
    · rw [dif_pos hpos, hnil] at h
      exact absurd h (by simp [encLoop])
    · rw [dif_neg hpos] at h
      exact absurd h (by simp)
  · rw [dif_neg htok] at h
    exact absurd h (by simp)

/-- The decoder forward returns a value only when there is at least one
convolution layer. -/
lemma decForward_ok_imp {K : Type} [Field K] (dec : Decoder K)
    (exp : K → K) (d : DropFn K) {B T S : ℕ} (trg : Fin B → Fin T → ℕ)
    (encoder_conved encoder_combined : Ten3 K B S dec.emb_dim)
    (r : Ten3 K B T dec.output_dim × Ten3 K B T S)
    (h : dec.forward exp d trg encoder_conved encoder_combined = .ok r) :
    dec.convs ≠ [] := by
  intro hnil
  unfold Decoder.forward at h
  by_cases htok : ∀ b l, trg b l < dec.output_dim
  · rw [dif_pos htok] at h
    by_cases hpos : ∀ l : Fin T, (l : ℕ) < 100
    · rw [dif_pos hpos, hnil] at h
      exact absurd h (by simp [decLoop])
    · rw [dif_neg hpos] at h
      exact absurd h (by simp)
  · rw [dif_neg htok] at h
    exact absurd h (by simp)

/-- A linear layer acts position-wise, so it preserves prefix agreement. -/
lemma linApply_agree {K : Type} [Field K] {B L inF outF p : ℕ}
    (P : LinearParams K inF outF) {x y : Ten3 K B L inF}
    (h : AgreeL2 p x y) : AgreeL2 p (linApply P x) (linApply P y) := by
  intro b l o hl
  unfold linApply
  congr 1
  exact Finset.sum_congr rfl (fun i _ => by rw [h b l i hl])

/-- Causality of the left-padded convolution: with `kernel_size - 1`
positions prepended and nothing appended, output position `t` reads only
input positions `≤ t`, so prefix agreement is preserved. -/
lemma conv1d_causal_agree {K : Type} [Field K] {B inC outC k L p : ℕ}
    (c : Conv1dParams K inC outC k) (pv : K) {x y : Ten3 K B inC L}
    (h : AgreeL3 p x y) :
    AgreeL3 p (conv1d c pv (k - 1) 0 x) (conv1d c pv (k - 1) 0 y) := by
  intro b oc t ht
  unfold conv1d
  congr 1
  refine Finset.sum_congr rfl (fun ic _ =>
    Finset.sum_congr rfl (fun j _ => ?_))
  congr 1
  unfold convPadGet
  by_cases h1 : (t : ℕ) + (j : ℕ) < k - 1
  · simp only [if_pos h1]
  · simp only [if_neg h1]
    by_cases h2 : (t : ℕ) + (j : ℕ) - (k - 1) < L
    · simp only [dif_pos h2]
      have hj := j.isLt
      have hu : (t : ℕ) + (j : ℕ) - (k - 1) < p := by omega
      exact h b ic ⟨(t : ℕ) + (j : ℕ) - (k - 1), h2⟩ hu
    · simp only [dif_neg h2]

/-- The GLU gate acts position-wise, so it preserves prefix agreement. -/
lemma glu_agree {K : Type} [Field K] {exp : K → K} {B H L p : ℕ}
    {x y : Ten3 K B (2 * H) L} (h : AgreeL3 p x y) :
    AgreeL3 p (glu exp x) (glu exp y) := by
  intro b c t ht
  unfold glu
  rw [h b _ t ht, h b _ t ht]

/-- The attention step reads `embedded` and `conved` only at the target
position being produced (the encoder outputs are read wholesale), so its
fused output preserves prefix agreement in the target axis. -/
lemma calcAttn_snd_agree {K : Type} [Field K] (dec : Decoder K)
    (exp : K → K) {B T S p : ℕ}
    (encoder_conved encoder_combined : Ten3 K B S dec.emb_dim)
    {emb1 emb2 : Ten3 K B T dec.emb_dim}
    {cv1 cv2 : Ten3 K B dec.hid_dim T}
    (he : AgreeL2 p emb1 emb2) (hc : AgreeL3 p cv1 cv2) :
    AgreeL3 p
      (dec.calculate_attention exp emb1 cv1 encoder_conved
        encoder_combined).2
      (dec.calculate_attention exp emb2 cv2 encoder_conved
        encoder_combined).2 := by
  intro b h t ht
  have hce : ∀ e, attnConvedEmb dec cv1 b t e = attnConvedEmb dec cv2 b t e := by
    intro e
    unfold attnConvedEmb linApply
    congr 1
    exact Finset.sum_congr rfl (fun h2 _ => by simp only [hc b h2 t ht])
  have hcb : ∀ e, attnCombined dec emb1 cv1 b t e =
      attnCombined dec emb2 cv2 b t e := by
    intro e
    unfold attnCombined
    rw [he b t e ht, hce e]
  have hen : ∀ j, attnEnergy dec emb1 cv1 encoder_conved b t j =
      attnEnergy dec emb2 cv2 encoder_conved b t j := by
    intro j
    unfold attnEnergy
    exact Finset.sum_congr rfl (fun e _ => by rw [hcb e])
  have hw : ∀ j, attnWeights dec exp emb1 cv1 encoder_conved b t j =
      attnWeights dec exp emb2 cv2 encoder_conved b t j := by
    intro j
    unfold attnWeights
    rw [hen j]
    congr 1
    exact Finset.sum_congr rfl (fun j2 _ => by rw [hen j2])
  have hat : ∀ e, attnAttended dec exp emb1 cv1 encoder_conved
      encoder_combined b t e =
      attnAttended dec exp emb2 cv2 encoder_conved encoder_combined b t e := by
    intro e
    unfold attnAttended
    exact Finset.sum_congr rfl (fun j _ => by rw [hw j])
  have hah : attnAttendedHid dec exp emb1 cv1 encoder_conved
      encoder_combined b t h =
      attnAttendedHid dec exp emb2 cv2 encoder_conved encoder_combined
        b t h := by
    unfold attnAttendedHid linApply
    congr 1
    exact Finset.sum_congr rfl (fun e _ => by rw [hat e])
  show (cv1 b h t + attnAttendedHid dec exp emb1 cv1 encoder_conved
      encoder_combined b t h) * dec.scale = _
  rw [hc b h t ht, hah]
  rfl

/-- The identity dropout leaves every tensor unchanged. -/
lemma idDrop_app {K : Type} {a b c : ℕ} (x : Ten3 K a b c) :
    (idDrop K).app x = x := rfl

/-- A decoder stage with dropout disabled preserves prefix agreement of
the stage inputs and of the embeddings. -/
lemma decStage_agree {K : Type} [Field K] (exp : K → K) (dec : Decoder K)
    {B T S p : ℕ}
    (c : Conv1dParams K dec.hid_dim (2 * dec.hid_dim) dec.kernel_size)
    (encoder_conved encoder_combined : Ten3 K B S dec.emb_dim)
    {emb1 emb2 : Ten3 K B T dec.emb_dim}
    {ci1 ci2 : Ten3 K B dec.hid_dim T}
    (hc : dec.kernel_size ≤ T + (dec.kernel_size - 1) + 0)
    (hs : conv1dOutLen dec.kernel_size (dec.kernel_size - 1) 0 T = T)
    (he : AgreeL2 p emb1 emb2) (hci : AgreeL3 p ci1 ci2) :
    ∃ y1 a1 y2 a2,
      decStage exp dec c emb1 encoder_conved encoder_combined
        (fun x => x) ci1 = .ok (y1, a1) ∧
      decStage exp dec c emb2 encoder_conved encoder_combined
        (fun x => x) ci2 = .ok (y2, a2) ∧
      AgreeL3 p y1 y2 := by
  rw [decStage_ok exp dec c emb1 encoder_conved encoder_combined
      (fun x => x) ci1 hc hs,
    decStage_ok exp dec c emb2 encoder_conved encoder_combined
      (fun x => x) ci2 hc hs]
  refine ⟨_, _, _, _, rfl, rfl, ?_⟩
  intro b h t ht
  have hg : AgreeL3 p
      (fun b2 h2 t2 =>
        glu exp (conv1d c ((dec.pad_idx : ℕ) : K) (dec.kernel_size - 1) 0
            ((fun x => x) ci1)) b2 h2 (Fin.cast hs.symm t2))
      (fun b2 h2 t2 =>
        glu exp (conv1d c ((dec.pad_idx : ℕ) : K) (dec.kernel_size - 1) 0
            ((fun x => x) ci2)) b2 h2 (Fin.cast hs.symm t2)) := by
    intro b2 h2 t2 ht2
    exact glu_agree (conv1d_causal_agree c _ hci) b2 h2
      (Fin.cast hs.symm t2) ht2
  have hstep := calcAttn_snd_agree dec exp encoder_conved encoder_combined
    he hg b h t ht
  simp only []
  rw [hstep, hci b h t ht]

/-- The decoder loop with dropout disabled preserves prefix agreement:
runs from prefix-agreeing inputs both succeed and their `conved`
variables agree on the prefix throughout. -/
lemma decLoop_agree {K : Type} [Field K] (exp : K → K) (dec : Decoder K)
    {B T S p : ℕ}
    (encoder_conved encoder_combined : Ten3 K B S dec.emb_dim)
    (hk : 1 ≤ dec.kernel_size) (hT : 1 ≤ T)
    {emb1 emb2 : Ten3 K B T dec.emb_dim} (he : AgreeL2 p emb1 emb2) :
    ∀ (convs : List (Conv1dParams K dec.hid_dim (2 * dec.hid_dim)
        dec.kernel_size))
      (ci1 ci2 : Ten3 K B dec.hid_dim T)
      (last1 last2 : Option (Ten3 K B dec.hid_dim T × Ten3 K B T S)),
      AgreeL3 p ci1 ci2 → CvRel p last1 last2 →
      ∃ ci1' l1' ci2' l2',
        decLoop exp dec emb1 encoder_conved encoder_combined (fun x => x)
          convs ci1 last1 = .ok (ci1', l1') ∧
        decLoop exp dec emb2 encoder_conved encoder_combined (fun x => x)
          convs ci2 last2 = .ok (ci2', l2') ∧
        CvRel p l1' l2' ∧
        (convs ≠ [] → ∃ cv1 a1 cv2 a2,
          l1' = some (cv1, a1) ∧ l2' = some (cv2, a2)) := by
  intro convs
  induction convs with
  | nil =>
    intro ci1 ci2 last1 last2 _ hrel
    exact ⟨ci1, last1, ci2, last2, rfl, rfl, hrel, fun h => absurd rfl h⟩
  | cons c rest ih =>
    intro ci1 ci2 last1 last2 hci _
    obtain ⟨hc, hs⟩ := decOut hk hT
    obtain ⟨y1, a1, y2, a2, hst1, hst2, hy⟩ :=
      decStage_agree exp dec c encoder_conved encoder_combined hc hs he hci
    obtain ⟨ci1', l1', ci2', l2', hr1, hr2, hrel', hne⟩ :=
      ih y1 y2 (some (y1, a1)) (some (y2, a2)) hy hy
    refine ⟨ci1', l1', ci2', l2', ?_, ?_, hrel', ?_⟩
    · rw [decLoop, hst1]
      exact hr1
    · rw [decLoop, hst2]
      exact hr2
    · intro _
      cases rest with
      | nil =>
        cases hr1
        cases hr2
        exact ⟨_, _, _, _, rfl, rfl⟩
      | cons c2 r2 => exact hne (by simp)

/-- With dropout disabled, target batches agreeing on a prefix give
embeddings agreeing on that prefix. -/
lemma embD_agree {K : Type} [Field K] (dec : Decoder K) {B T p : ℕ}
    (trg1 trg2 : Fin B → Fin T → ℕ)
    (htok1 : ∀ b l, trg1 b l < dec.output_dim)
    (htok2 : ∀ b l, trg2 b l < dec.output_dim)
    (hpos : ∀ l : Fin T, (l : ℕ) < 100)
    (hag : ∀ b (i : Fin T), (i : ℕ) < p → trg1 b i = trg2 b i) :
    AgreeL2 p (dec.embD (idDrop K) trg1 htok1 hpos)
      (dec.embD (idDrop K) trg2 htok2 hpos) := by
  intro b l f hl
  unfold Decoder.embD
  rw [idDrop_app, idDrop_app]
  unfold Decoder.embeddedPre
  have h1 : (⟨trg1 b l, htok1 b l⟩ : Fin dec.output_dim) =
      ⟨trg2 b l, htok2 b l⟩ := Fin.ext (hag b l hl)
  rw [h1]

/-- With dropout disabled, prefix-agreeing targets give prefix-agreeing
initial convolution inputs. -/
lemma convInput0_agree {K : Type} [Field K] (dec : Decoder K) {B T p : ℕ}
    (trg1 trg2 : Fin B → Fin T → ℕ)
    (htok1 : ∀ b l, trg1 b l < dec.output_dim)
    (htok2 : ∀ b l, trg2 b l < dec.output_dim)
    (hpos : ∀ l : Fin T, (l : ℕ) < 100)
    (hag : ∀ b (i : Fin T), (i : ℕ) < p → trg1 b i = trg2 b i) :
    AgreeL3 p (dec.convInput0 (idDrop K) trg1 htok1 hpos)
      (dec.convInput0 (idDrop K) trg2 htok2 hpos) := by
  intro b h t ht
  unfold Decoder.convInput0
  exact linApply_agree dec.emb2hid
    (embD_agree dec trg1 trg2 htok1 htok2 hpos hag) b t h ht

/-- Claim C1: Causality of the decoder: for every parameter set, every pair
of encoder outputs, and every pair of equal-length target batches that
agree on positions `0 .. p-1` (with both in vocabulary range and the
forward passes defined), the decoder logits at position `p-1` coincide
when dropout is disabled, because each convolution stage left-pads
`kernel_size - 1` positions and pads nothing on the right. -/
theorem decoder_causality {K : Type} [Field K] (dec : Decoder K)
    (exp : K → K) {B T S : ℕ}
    (encoder_conved encoder_combined : Ten3 K B S dec.emb_dim)
    (trg1 trg2 : Fin B → Fin T → ℕ) (p : ℕ)
    (hp : 1 ≤ p) (hpT : p ≤ T)
    (hagree : ∀ b (i : Fin T), (i : ℕ) < p → trg1 b i = trg2 b i)
    (htok1 : ∀ b l, trg1 b l < dec.output_dim)
    (htok2 : ∀ b l, trg2 b l < dec.output_dim)
    (hT100 : T ≤ 100) (hk : 1 ≤ dec.kernel_size) (hn : dec.convs ≠ []) :
    ∃ o1 a1 o2 a2,
      dec.forward exp (idDrop K) trg1 encoder_conved encoder_combined =
        .ok (o1, a1) ∧
      dec.forward exp (idDrop K) trg2 encoder_conved encoder_combined =
        .ok (o2, a2) ∧
      ∀ b oc, o1 b ⟨p - 1, by omega⟩ oc = o2 b ⟨p - 1, by omega⟩ oc := by
  have hT : 1 ≤ T := le_trans hp hpT
  have hpos : ∀ l : Fin T, (l : ℕ) < 100 :=
    fun l => lt_of_lt_of_le l.isLt hT100
  have he := embD_agree dec trg1 trg2 htok1 htok2 hpos hagree
  have hci := convInput0_agree dec trg1 trg2 htok1 htok2 hpos hagree
  obtain ⟨ci1', l1', ci2', l2', hr1, hr2, hrel, hne⟩ :=
    decLoop_agree exp dec encoder_conved encoder_combined hk hT he
      dec.convs (dec.convInput0 (idDrop K) trg1 htok1 hpos)
      (dec.convInput0 (idDrop K) trg2 htok2 hpos) none none hci trivial
  obtain ⟨cv1, a1, cv2, a2, hl1, hl2⟩ := hne hn
  subst hl1
  subst hl2
  have hcv : AgreeL3 p cv1 cv2 := hrel
  have hr1' : decLoop exp dec (dec.embD (idDrop K) trg1 htok1 hpos)
      encoder_conved encoder_combined (fun x => (idDrop K).app x) dec.convs
      (dec.convInput0 (idDrop K) trg1 htok1 hpos) none =
      .ok (ci1', some (cv1, a1)) := hr1
  have hr2' : decLoop exp dec (dec.embD (idDrop K) trg2 htok2 hpos)
      encoder_conved encoder_combined (fun x => (idDrop K).app x) dec.convs
      (dec.convInput0 (idDrop K) trg2 htok2 hpos) none =
      .ok (ci2', some (cv2, a2)) := hr2
  refine ⟨linApply dec.out ((idDrop K).app
      (linApply dec.hid2emb (fun b t h => cv1 b h t))), a1,
    linApply dec.out ((idDrop K).app
      (linApply dec.hid2emb (fun b t h => cv2 b h t))), a2, ?_, ?_, ?_⟩
  · unfold Decoder.forward
    rw [dif_pos htok1, dif_pos hpos, hr1']
  · unfold Decoder.forward
    rw [dif_pos htok2, dif_pos hpos, hr2']
  · intro b oc
    have hperm : AgreeL2 p
        (fun (b2 : Fin B) (t : Fin T) (h : Fin dec.hid_dim) => cv1 b2 h t)
        (fun b2 t h => cv2 b2 h t) :=
      fun b2 l f hl => hcv b2 f l hl
    have hmid := linApply_agree dec.hid2emb hperm
    have hid2 : AgreeL2 p
        ((idDrop K).app (linApply dec.hid2emb (fun b2 t h => cv1 b2 h t)))
        ((idDrop K).app (linApply dec.hid2emb (fun b2 t h => cv2 b2 h t))) :=
      hmid
    have hout := linApply_agree dec.out hid2
    exact hout b ⟨p - 1, by omega⟩ oc (show p - 1 < p by omega)

/-- Claim C2 (amended with `1 ≤ S`).  Row-stochasticity: whenever the decoder
returns (any batch size, target length `1 ≤ T ≤ 100`, source length
`S ≥ 1`, in-range tokens, at least one layer), every row of the
returned attention tensor is nonnegative and sums to 1, because it is a
softmax over the source axis of positive exponentials. -/
theorem attention_row_stochastic {K : Type} [LinearOrderedField K]
    (dec : Decoder K) {exp : K → K} (hexp : ∀ x, 0 < exp x) (d : DropFn K)
    {B T S : ℕ} (hS : 1 ≤ S) (hT : 1 ≤ T) (hT100 : T ≤ 100)
    (trg : Fin B → Fin T → ℕ) (htok : ∀ b l, trg b l < dec.output_dim)
    (hk : 1 ≤ dec.kernel_size) (hn : dec.convs ≠ [])
    (encoder_conved encoder_combined : Ten3 K B S dec.emb_dim) :
    ∃ o a, dec.forward exp d trg encoder_conved encoder_combined =
        .ok (o, a) ∧
      ∀ b i, (∑ j : Fin S, a b i j) = 1 ∧ ∀ j, 0 ≤ a b i j := by
  have hpos : ∀ l : Fin T, (l : ℕ) < 100 :=
    fun l => lt_of_lt_of_le l.isLt hT100
  obtain ⟨o, g, h⟩ := decForward_attn dec exp d trg encoder_conved
    encoder_combined hk hT hn htok hpos
  exact ⟨o, _, h, fun b i =>
    attnWeights_rowst dec hexp hS (dec.embD d trg htok hpos) g
      encoder_conved b i⟩

/-- Claim C3 (amended with `1 ≤ S` and `1 ≤ T`).  Shape invariance: for every
batch size and lengths `1 ≤ S, T ≤ 100` (with in-range tokens, at least
one layer, and the constructor-guaranteed odd encoder kernel), the
encoder forward returns two tensors of shape (B, S, emb_dim) and the
decoder forward returns logits of shape (B, T, output_dim) and
attention of shape (B, T, S); the shapes are carried by the types of
the returned values. -/
theorem forward_shapes {K : Type} [Field K] :
    (∀ (enc : Encoder K) (exp : K → K) (d : DropFn K) (B S : ℕ)
      (src : Fin B → Fin S → ℕ),
      enc.kernel_size % 2 = 1 → enc.convs ≠ [] → 1 ≤ S → S ≤ 100 →
      (∀ b l, src b l < enc.input_dim) →
      ∃ conved combined : Ten3 K B S enc.emb_dim,
        enc.forward exp d src = .ok (conved, combined)) ∧
    (∀ (dec : Decoder K) (exp : K → K) (d : DropFn K) (B T S : ℕ)
      (trg : Fin B → Fin T → ℕ)
      (encoder_conved encoder_combined : Ten3 K B S dec.emb_dim),
      1 ≤ dec.kernel_size → dec.convs ≠ [] → 1 ≤ T → T ≤ 100 →
      (∀ b l, trg b l < dec.output_dim) →
      ∃ (o : Ten3 K B T dec.output_dim) (a : Ten3 K B T S),
        dec.forward exp d trg encoder_conved encoder_combined =
          .ok (o, a)) := by
  constructor
  · intro enc exp d B S src hk hn hS hS100 htok
    exact encForward_ok enc exp d src hk hS hn htok
      (fun l => lt_of_lt_of_le l.isLt hS100)
  · intro dec exp d B T S trg encoder_conved encoder_combined hk hn hT
      hT100 htok
    exact decForward_ok dec exp d trg encoder_conved encoder_combined hk hT
      hn htok (fun l => lt_of_lt_of_le l.isLt hT100)

/-- Claim C4: The Seq2Seq wrapper is a pure composition: its forward equals
the encoder forward bound into the decoder forward (when the two
embedding widths agree, as any runnable model requires), and it
propagates any failure of either sub-component unchanged. -/
theorem seq2seq_composition {K : Type} [Field K] (m : Seq2Seq K)
    (exp : K → K) (d : DropFn K) {B S T : ℕ} (src : Fin B → Fin S → ℕ)
    (trg : Fin B → Fin T → ℕ)
    (h : m.encoder.emb_dim = m.decoder.emb_dim) :
    (m.forward exp d src trg = (m.encoder.forward exp d src).bind
      (fun pr => m.decoder.forward exp d trg
        (fun b s e => pr.1 b s (Fin.cast h.symm e))
        (fun b s e => pr.2 b s (Fin.cast h.symm e)))) ∧
    (∀ e2, m.encoder.forward exp d src = .error e2 →
      m.forward exp d src trg = .error e2) ∧
    (∀ c cm e2, m.encoder.forward exp d src = .ok (c, cm) →
      m.decoder.forward exp d trg
        (fun b s e => c b s (Fin.cast h.symm e))
        (fun b s e => cm b s (Fin.cast h.symm e)) = .error e2 →
      m.forward exp d src trg = .error e2) := by
  refine ⟨?_, ?_, ?_⟩
  · unfold Seq2Seq.forward
    rcases henc : m.encoder.forward exp d src with e | ⟨c, cm⟩
    · rfl
    · simp only []
      rw [dif_pos h]
      rfl
  · intro e2 he2
    unfold Seq2Seq.forward
    rw [he2]
  · intro c cm e2 hok hde
    unfold Seq2Seq.forward
    rw [hok]
    simp only []
    rw [dif_pos h]
    exact hde

/-- Claim C5: Position capacity: the position table has fixed capacity 100
(its index type), every position index of a sequence of length at most
100 is in range, and a sequence longer than 100 makes the forward pass
of either module fail with an out-of-range index error instead of
wrapping or truncating. -/
theorem position_capacity {K : Type} [Field K] :
    (∀ S : ℕ, S ≤ 100 → ∀ l : Fin S, (l : ℕ) < 100) ∧
    (∀ (enc : Encoder K) (exp : K → K) (d : DropFn K) (B S : ℕ)
      (src : Fin B → Fin S → ℕ), 100 < S →
      enc.forward exp d src = .error .indexError) ∧
    (∀ (dec : Decoder K) (exp : K → K) (d : DropFn K) (B T S : ℕ)
      (trg : Fin B → Fin T → ℕ)
      (encoder_conved encoder_combined : Ten3 K B S dec.emb_dim),
      100 < T →
      dec.forward exp d trg encoder_conved encoder_combined =
        .error .indexError) := by
  refine ⟨fun S hS l => lt_of_lt_of_le l.isLt hS, ?_, ?_⟩
  · intro enc exp d B S src hS
    unfold Encoder.forward
    by_cases htok : ∀ b l, src b l < enc.input_dim
    · rw [dif_pos htok, dif_neg ?_]
      intro hpos
      exact absurd (hpos ⟨100, by omega⟩) (by simp)
    · rw [dif_neg htok]
  · intro dec exp d B T S trg encoder_conved encoder_combined hT
    unfold Decoder.forward
    by_cases htok : ∀ b l, trg b l < dec.output_dim
    · rw [dif_pos htok, dif_neg ?_]
      intro hpos
      exact absurd (hpos ⟨100, by omega⟩) (by simp)
    · rw [dif_neg htok]

/-- Claim C6: Odd-kernel precondition: constructing an Encoder with an even
kernel size fails at construction time with the assertion failure, any
odd kernel size passes the check, and the check is not re-run per call:
no encoder forward ever produces the assertion failure. -/
theorem odd_kernel_assert {K : Type} [Field K] :
    (∀ (input_dim emb_dim hid_dim kernel_size : ℕ) (sqh : K)
      (tok : Fin input_dim → Fin emb_dim → K)
      (pos : Fin 100 → Fin emb_dim → K)
      (e2h : LinearParams K emb_dim hid_dim)
      (h2e : LinearParams K hid_dim emb_dim)
      (convs : List (Conv1dParams K hid_dim (2 * hid_dim) kernel_size)),
      kernel_size % 2 = 0 →
      Encoder.init input_dim emb_dim hid_dim kernel_size sqh tok pos e2h
        h2e convs = .error .assertError) ∧
    (∀ (input_dim emb_dim hid_dim kernel_size : ℕ) (sqh : K)
      (tok : Fin input_dim → Fin emb_dim → K)
      (pos : Fin 100 → Fin emb_dim → K)
      (e2h : LinearParams K emb_dim hid_dim)
      (h2e : LinearParams K hid_dim emb_dim)
      (convs : List (Conv1dParams K hid_dim (2 * hid_dim) kernel_size)),
      kernel_size % 2 = 1 →
      ∃ enc, Encoder.init input_dim emb_dim hid_dim kernel_size sqh tok
        pos e2h h2e convs = .ok enc) ∧
    (∀ (enc : Encoder K) (exp : K → K) (d : DropFn K) (B S : ℕ)
      (src : Fin B → Fin S → ℕ),
      enc.forward exp d src ≠ .error .assertError) := by
  refine ⟨?_, ?_, ?_⟩
  · intro input_dim emb_dim hid_dim kernel_size sqh tok pos e2h h2e convs h
    unfold Encoder.init
    rw [if_neg (by omega)]
  · intro input_dim emb_dim hid_dim kernel_size sqh tok pos e2h h2e convs h
    unfold Encoder.init
    rw [if_pos h]
    exact ⟨_, rfl⟩
  · intro enc exp d B S src
    exact encForward_no_assert enc exp d src

/-- Claim C7: Encoder same-length convolution: for every odd kernel size and
every source length at least the kernel size, the symmetric padding
`(kernel_size - 1) / 2` makes the convolution output length equal the
input length, and the encoder stage (convolution, GLU, residual)
returns a tensor of the input's shape. -/
theorem encoder_same_length {K : Type} [Field K] {B H S k : ℕ}
    (exp : K → K) (scale : K) (c : Conv1dParams K H (2 * H) k)
    (D : Ten3 K B H S → Ten3 K B H S) (x : Ten3 K B H S)
    (hk : k % 2 = 1) (hSk : k ≤ S) :
    conv1dOutLen k ((k - 1) / 2) ((k - 1) / 2) S = S ∧
      ∃ y : Ten3 K B H S, encStage exp scale c D x = .ok y := by
  have hS : 1 ≤ S := le_trans (by omega) hSk
  obtain ⟨hc, hs⟩ := encOddOut hk hS
  exact ⟨hs, ⟨_, encStage_eq exp scale c D x hc hs⟩⟩

/-- Claim C8: GLU correctness: on any tensor with `2*H` channels, the gated
output at channel `c` is the entry at channel `c` (first half) times
the sigmoid `1 / (1 + exp (-y))` of the entry at channel `c + H`
(second half). -/
theorem glu_formula {K : Type} [Field K] (exp : K → K) {B H L : ℕ}
    (x : Ten3 K B (2 * H) L) (b : Fin B) (c : Fin H) (t : Fin L) :
    glu exp x b c t =
      x b (Fin.castLE (by omega) c) t *
        sigmoid exp (x b (Fin.cast (by omega) (c.addNat H)) t) ∧
    glu exp x b c t =
      x b (Fin.castLE (by omega) c) t *
        (1 / (1 + exp (-(x b (Fin.cast (by omega) (c.addNat H)) t)))) :=
  ⟨rfl, rfl⟩

/-- Claim C9: Residual-input asymmetry: a decoder stage is a function of the
dropout-applied input alone (its residual adds the very tensor that was
padded and convolved), an encoder stage convolves the dropout-applied
input but adds the raw pre-dropout input in its residual, and with
dropout disabled the two residual conventions coincide. -/
theorem residual_dropout_asymmetry {K : Type} [Field K] :
    (∀ (exp : K → K) (dec : Decoder K) (B T S : ℕ)
      (c : Conv1dParams K dec.hid_dim (2 * dec.hid_dim) dec.kernel_size)
      (embedded : Ten3 K B T dec.emb_dim)
      (encoder_conved encoder_combined : Ten3 K B S dec.emb_dim)
      (D : Ten3 K B dec.hid_dim T → Ten3 K B dec.hid_dim T)
      (ci : Ten3 K B dec.hid_dim T),
      decStage exp dec c embedded encoder_conved encoder_combined D ci =
        decStage exp dec c embedded encoder_conved encoder_combined
          (fun x => x) (D ci)) ∧
    (∀ (exp : K → K) (scale : K) (B H S k : ℕ)
      (c : Conv1dParams K H (2 * H) k)
      (D : Ten3 K B H S → Ten3 K B H S) (x : Ten3 K B H S)
      (_hc : k ≤ S + 2 * ((k - 1) / 2))
      (hs : conv1dOutLen k ((k - 1) / 2) ((k - 1) / 2) S = S),
      encStage exp scale c D x = .ok (fun b ch t =>
        (glu exp (conv1d c 0 ((k - 1) / 2) ((k - 1) / 2) (D x)) b ch
            (Fin.cast hs.symm t) + x b ch t) * scale)) ∧
    (∀ (exp : K → K) (scale : K) (B H S k : ℕ)
      (c : Conv1dParams K H (2 * H) k) (x : Ten3 K B H S),
      encStageResAfterDrop exp scale c (fun y => y) x =
        encStage exp scale c (fun y => y) x) := by
  refine ⟨?_, ?_, ?_⟩
  · intro exp dec B T S c embedded encoder_conved encoder_combined D ci
    rfl
  · intro exp scale B H S k c D x hc hs
    exact encStage_eq exp scale c D x hc hs
  · intro exp scale B H S k c x
    rfl

/-- Claim C10: A lower bound of one layer: with `n_layers = 0` (an empty
convolution stack) both forwards fail with Python's unbound-variable
failure (once the embedding lookups are in range), and either forward
returns a value only when there is at least one layer. -/
theorem n_layers_lower_bound {K : Type} [Field K] :
    (∀ (enc : Encoder K) (exp : K → K) (d : DropFn K) (B S : ℕ)
      (src : Fin B → Fin S → ℕ), enc.convs = [] →
      (∀ b l, src b l < enc.input_dim) → (∀ l : Fin S, (l : ℕ) < 100) →
      enc.forward exp d src = .error .nameError) ∧
    (∀ (dec : Decoder K) (exp : K → K) (d : DropFn K) (B T S : ℕ)
      (trg : Fin B → Fin T → ℕ)
      (encoder_conved encoder_combined : Ten3 K B S dec.emb_dim),
      dec.convs = [] → (∀ b l, trg b l < dec.output_dim) →
      (∀ l : Fin T, (l : ℕ) < 100) →
      dec.forward exp d trg encoder_conved encoder_combined =
        .error .nameError) ∧
    (∀ (enc : Encoder K) (exp : K → K) (d : DropFn K) (B S : ℕ)
      (src : Fin B → Fin S → ℕ)
      (r : Ten3 K B S enc.emb_dim × Ten3 K B S enc.emb_dim),
      enc.forward exp d src = .ok r → enc.convs ≠ []) ∧
    (∀ (dec : Decoder K) (exp : K → K) (d : DropFn K) (B T S : ℕ)
      (trg : Fin B → Fin T → ℕ)
      (encoder_conved encoder_combined : Ten3 K B S dec.emb_dim)
      (r : Ten3 K B T dec.output_dim × Ten3 K B T S),
      dec.forward exp d trg encoder_conved encoder_combined = .ok r →
      dec.convs ≠ []) := by
  refine ⟨?_, ?_, ?_, ?_⟩
  · intro enc exp d B S src hnil htok hpos
    exact encForward_nil enc exp d src hnil htok hpos
  · intro dec exp d B T S trg encoder_conved encoder_combined hnil htok hpos
    exact decForward_nil dec exp d trg encoder_conved encoder_combined hnil
      htok hpos
  · intro enc exp d B S src r hok
    exact encForward_ok_imp enc exp d src r hok
  · intro dec exp d B T S trg encoder_conved encoder_combined r hok
    exact decForward_ok_imp dec exp d trg encoder_conved encoder_combined
      r hok

/-- Concrete instance of C1: a one-layer decoder on a one-token target
with prefix length 1. -/
theorem decoder_causality_witness :
    ∃ o1 a1 o2 a2,
      Fix.decA.forward Fix.oneExp (idDrop ℚ) Fix.tok0 Fix.enc3 Fix.enc3 =
        .ok (o1, a1) ∧
      Fix.decA.forward Fix.oneExp (idDrop ℚ) Fix.tok0 Fix.enc3 Fix.enc3 =
        .ok (o2, a2) ∧
      ∀ b oc, o1 b ⟨1 - 1, by omega⟩ oc = o2 b ⟨1 - 1, by omega⟩ oc :=
  decoder_causality Fix.decA Fix.oneExp Fix.enc3 Fix.enc3 Fix.tok0 Fix.tok0 1
    (by decide) (by decide) (fun _ _ _ => rfl) (by decide) (by decide)
    (by decide) (by decide) (List.cons_ne_nil _ _)

/-- Concrete instance of the amended C2 at source length 1. -/
theorem attention_row_stochastic_witness :
    ∃ o a,
      Fix.decA.forward Fix.oneExp (idDrop ℚ) Fix.tok0 Fix.enc3 Fix.enc3 =
        .ok (o, a) ∧
      ∀ b i, (∑ j : Fin 1, a b i j) = 1 ∧ ∀ j, 0 ≤ a b i j :=
  attention_row_stochastic Fix.decA (fun _ => one_pos) (idDrop ℚ)
    (by decide) (by decide) (by decide) Fix.tok0 (by decide) (by decide)
    (List.cons_ne_nil _ _) Fix.enc3 Fix.enc3

/-- C2 as stated is false at source length 0: the decoder returns, and
the returned attention has a row that sums to 0, not 1. -/
theorem attention_row_stochastic_cex :
    isOkE (Fix.decA.forward Fix.oneExp (idDrop ℚ) Fix.tok0 Fix.encS0
      Fix.encS0) = true ∧
    rowSumAt (Fix.decA.forward Fix.oneExp (idDrop ℚ) Fix.tok0 Fix.encS0
      Fix.encS0) 0 0 = 0 := by
  decide

/-- Concrete instance of the amended C3 at lengths S = T = 1. -/
theorem forward_shapes_witness :
    (∃ conved combined : Ten3 ℚ 1 1 Fix.encA.emb_dim,
      Fix.encA.forward Fix.oneExp (idDrop ℚ) Fix.tok0 =
        .ok (conved, combined)) ∧
    (∃ (o : Ten3 ℚ 1 1 Fix.decA.output_dim) (a : Ten3 ℚ 1 1 1),
      Fix.decA.forward Fix.oneExp (idDrop ℚ) Fix.tok0 Fix.enc3 Fix.enc3 =
        .ok (o, a)) :=
  ⟨(forward_shapes (K := ℚ)).1 Fix.encA Fix.oneExp (idDrop ℚ) 1 1 Fix.tok0
      (by decide) (List.cons_ne_nil _ _) (by decide) (by decide) (by decide),
   (forward_shapes (K := ℚ)).2 Fix.decA Fix.oneExp (idDrop ℚ) 1 1 1
      Fix.tok0 Fix.enc3 Fix.enc3 (by decide) (List.cons_ne_nil _ _)
      (by decide) (by decide) (by decide)⟩

/-- C3 as stated is false at source length 0: the encoder forward fails
(the convolution output would be empty) instead of returning tensors. -/
theorem forward_shapes_cex :
    errOf (Fix.encA.forward Fix.oneExp (idDrop ℚ) Fix.tok00) =
      some .shapeError := by
  decide

/-- Concrete instance of C4 on the tiny wrapper. -/
theorem seq2seq_composition_witness :
    Fix.mA.forward Fix.oneExp (idDrop ℚ) Fix.tok0 Fix.tok0 =
      (Fix.mA.encoder.forward Fix.oneExp (idDrop ℚ) Fix.tok0).bind
        (fun pr => Fix.mA.decoder.forward Fix.oneExp (idDrop ℚ) Fix.tok0
          (fun b s e => pr.1 b s (Fin.cast
            (rfl : Fix.mA.encoder.emb_dim = Fix.mA.decoder.emb_dim).symm e))
          (fun b s e => pr.2 b s (Fin.cast
            (rfl : Fix.mA.encoder.emb_dim = Fix.mA.decoder.emb_dim).symm
              e))) :=
  (seq2seq_composition Fix.mA Fix.oneExp (idDrop ℚ) Fix.tok0 Fix.tok0 rfl).1

/-- Concrete instance of C5: length 101 exceeds the capacity of 100. -/
theorem position_capacity_witness :
    Fix.encA.forward Fix.oneExp (idDrop ℚ) Fix.tokLong =
      .error .indexError :=
  (position_capacity (K := ℚ)).2.1 Fix.encA Fix.oneExp (idDrop ℚ) 1 101
    Fix.tokLong (by decide)

/-- Concrete instance of C6: construction fails on kernel size 2, and a
forward call of the odd-kernel encoder never hits the assertion. -/
theorem odd_kernel_assert_witness :
    Encoder.init 1 1 1 2 (1 : ℚ) (fun _ _ => 0) (fun _ _ => 0) Fix.L0
        Fix.L0 [] = .error .assertError ∧
    Fix.encA.forward Fix.oneExp (idDrop ℚ) Fix.tok0 ≠
      .error .assertError :=
  ⟨(odd_kernel_assert (K := ℚ)).1 1 1 1 2 1 (fun _ _ => 0) (fun _ _ => 0)
      Fix.L0 Fix.L0 [] (by decide),
   (odd_kernel_assert (K := ℚ)).2.2 Fix.encA Fix.oneExp (idDrop ℚ) 1 1
      Fix.tok0⟩

/-- Concrete instance of C7 with kernel size 3 and source length 3. -/
theorem encoder_same_length_witness :
    conv1dOutLen 3 ((3 - 1) / 2) ((3 - 1) / 2) 3 = 3 ∧
      ∃ y : Ten3 ℚ 1 1 3,
        encStage Fix.oneExp (1 : ℚ) Fix.C3f (fun x => x)
          ((fun _ _ _ => 0) : Ten3 ℚ 1 1 3) = .ok y :=
  encoder_same_length Fix.oneExp 1 Fix.C3f (fun x => x)
    ((fun _ _ _ => 0) : Ten3 ℚ 1 1 3) (by decide) (by decide)

/-- Concrete instance of the encoder half of C9 on the tiny stage. -/
theorem residual_dropout_asymmetry_witness :
    encStage Fix.oneExp (1 : ℚ) Fix.C0 (fun y => y) Fix.zero3 =
      .ok (fun b ch t =>
        (glu Fix.oneExp (conv1d Fix.C0 0 ((1 - 1) / 2) ((1 - 1) / 2)
            ((fun y => y) Fix.zero3)) b ch
          (Fin.cast (by decide :
            conv1dOutLen 1 ((1 - 1) / 2) ((1 - 1) / 2) 1 = 1).symm t) +
          Fix.zero3 b ch t) * 1) :=
  (residual_dropout_asymmetry (K := ℚ)).2.1 Fix.oneExp 1 1 1 1 1 Fix.C0
    (fun y => y) Fix.zero3 (by decide) (by decide)

/-- Concrete instance of C10: the zero-layer encoder fails with the
unbound-variable error on a valid input. -/
theorem n_layers_lower_bound_witness :
    Fix.encE.forward Fix.oneExp (idDrop ℚ) Fix.tok0 = .error .nameError :=
  (n_layers_lower_bound (K := ℚ)).1 Fix.encE Fix.oneExp (idDrop ℚ) 1 1
    Fix.tok0 rfl (by decide) (by decide)
